import Mathlib

/-!
Verification development for the semantic retrieval index of the
`exam_corrector_autoGen` repository (`src/exam/rag/__init__.py`).

The Python module implements a vector store (`CrewAIVectorStore`) backed by
a SQLite database ("Metadata Store": tables `documents`, `vectors`,
`embedder_state`) and an in-memory FAISS flat inner-product index
("Vector Index"), together with a locally fitted TF-IDF embedder
(`TfidfEmbedder`, scikit-learn `TfidfVectorizer` + `TruncatedSVD`).

Shallow embedding conventions:
- floating point components are modelled as exact rationals (`ℚ`);
- the external Python libraries (numpy, scikit-learn, faiss) enter the model
  through a record of functions `PyEnv`; repository code is defined concretely
  over such an environment, and theorems quantify over it;
- the SQLite connection is a functional `DB` value; the transaction is
  modelled by keeping a `committed` snapshot next to the `pending` one:
  `commit` copies pending over committed, `rollback` discards pending;
- Python exceptions are modelled by an explicit failure-injection argument
  `failAt : Option FailPoint` naming the statement that raises (if it is
  reached); the value an operation hands back to its caller and the
  exception (if any) escaping to the caller are both explicit in the
  result records (`AddOutcome`, `SearchOutcome`);
- `np.random` draws are modelled through `PyEnv.randn` applied to an `rng`
  state argument; scikit-learn's `TruncatedSVD` with its default
  `algorithm="randomized"` and `random_state=None` draws from the global
  RNG, so `PyEnv.fitSvd` also receives the `rng` state.
-/

namespace ExamRag

/-- A vector of float components (`np.ndarray` of dtype float32),
modelled with exact rational components. -/
abbrev Vec := List ℚ

/-- A Python metadata dict (`Dict[str, Any]`), modelled as an association
list of scalar entries; it is stored pickled and passes through opaquely. -/
abbrev MetaMap := List (String × String)

/-- `Document` pydantic model from the source: `page_content` and
`metadata`. Note it has no similarity-score field. -/
structure Document where
  page_content : String
  metadata : MetaMap
deriving DecidableEq

/-- A Python exception class, as coarse-grained as the claims need. -/
inductive PyErr where
  | storageError
  | providerError
  | valueError
deriving DecidableEq

/-- Failure-injection points inside `CrewAIVectorStore.add_texts` and
`CrewAIVectorStore.similarity_search`: the statement of the source that
raises, if execution reaches it.  `atUpdate i` / `atInsert i` are the
`i`-th (0-based) iteration of the respective cursor loop; `atCommit` is
the final `self.conn.commit()` of `add_texts`. -/
inductive FailPoint where
  | atFit
  | atEmbedOld
  | atUpdate (i : Nat)
  | atEmbedNew
  | atInsert (i : Nat)
  | atCommit
  | atEmbedQuery
deriving DecidableEq

/-- The external Python libraries used by the module.  Each field models
one library entry point; repository code is defined over an arbitrary
such environment.
* `fitVec ts` — fitted state of `TfidfVectorizer.fit_transform(ts)`
  (its learned vocabulary);
* `vocabSize v` — number of TF-IDF features of a fitted vectorizer
  (`tfidf_matrix.shape[1]`);
* `transform v t` — the dense TF-IDF row `vectorizer.transform([t])`;
* `fitSvd rng n v ts` — components of `TruncatedSVD(n_components=n).fit`
  on the TF-IDF matrix of `ts`; depends on the global RNG state `rng`
  because the source passes no `random_state` and the default algorithm
  is randomized;
* `svdTransform p row` — `svd.transform` of one row;
* `norm v` — `np.linalg.norm(v)` (L2 norm, as the float value computed);
* `randn rng n` — `np.random.randn(n)` at global RNG state `rng`. -/
structure PyEnv where
  fitVec : List String → List String
  vocabSize : List String → Nat
  transform : List String → String → Vec
  fitSvd : Nat → Nat → List String → List String → List (List ℚ)
  svdTransform : List (List ℚ) → Vec → Vec
  norm : Vec → ℚ
  randn : Nat → Nat → Vec

/-- `faiss.normalize_L2`: divides every component by the L2 norm
(unguarded in the source; the guarded variant inside the embedder is
inlined there). -/
def l2normalize (env : PyEnv) (v : Vec) : Vec :=
  v.map (· / env.norm v)

/-- `TfidfEmbedder`: dimension, the fitted vectorizer state (vocabulary),
the fitted SVD state (components), and the `is_fitted` flag.
`TfidfEmbedder.__init__` leaves the vectorizer and SVD unfitted. -/
structure TfidfEmbedder where
  dimension : Nat
  vocab : List String
  svd : List (List ℚ)
  is_fitted : Bool
deriving DecidableEq

/-- `TfidfEmbedder.__init__(dimension)`. -/
def TfidfEmbedder.init (dimension : Nat) : TfidfEmbedder :=
  ⟨dimension, [], [], false⟩

/-- The embedder state produced by a successful `TfidfEmbedder.fit` on
`texts`: the vectorizer is always (re)fitted; the SVD is fitted (with
`n_components = min(dimension, 1000)`, from `__init__`) only when the
TF-IDF matrix has more columns than `dimension`; `is_fitted` becomes
true. -/
def TfidfEmbedder.fitResult (env : PyEnv) (rng : Nat) (e : TfidfEmbedder)
    (texts : List String) : TfidfEmbedder :=
  let vocab := env.fitVec texts
  if env.vocabSize vocab > e.dimension then
    { e with vocab := vocab,
             svd := env.fitSvd rng (min e.dimension 1000) vocab texts,
             is_fitted := true }
  else
    { e with vocab := vocab, is_fitted := true }

/-- `TfidfEmbedder.fit`: raises `ValueError` on an empty text list,
otherwise trains the vectorizer (and the SVD when the vocabulary exceeds
the configured dimension) and sets `is_fitted`. -/
def TfidfEmbedder.fit (env : PyEnv) (rng : Nat) (e : TfidfEmbedder)
    (texts : List String) : Except PyErr TfidfEmbedder :=
  if texts.isEmpty then .error .valueError
  else .ok (TfidfEmbedder.fitResult env rng e texts)

/-- `TfidfEmbedder._ensure_dimension`: truncate or zero-pad to exactly
`dimension` components. -/
def ensure_dimension (d : Nat) (v : Vec) : Vec :=
  if v.length = d then v
  else if v.length > d then v.take d
  else v ++ List.replicate (d - v.length) 0

/-- `TfidfEmbedder.embed` for one text (the per-row pipeline of
`embed_batch` is identical).  Before fitting, it prints a console
warning and returns `np.random.randn(dimension)` — a plain vector
carrying no flag.  After fitting: TF-IDF transform, SVD reduction when
the vocabulary exceeds the dimension, `_ensure_dimension`, then guarded
L2 normalization. -/
def TfidfEmbedder.embedOne (env : PyEnv) (rng : Nat) (e : TfidfEmbedder)
    (text : String) : Vec :=
  if e.is_fitted = false then env.randn rng e.dimension
  else
    let tv := env.transform e.vocab text
    let emb := if env.vocabSize e.vocab > e.dimension then env.svdTransform e.svd tv else tv
    let emb := ensure_dimension e.dimension emb
    if env.norm emb > 0 then emb.map (· / env.norm emb) else emb

/-- `TfidfEmbedder.embed_batch` followed by `faiss.normalize_L2`, as used
at both call sites in `add_texts`: the per-text pipeline of
`embed_batch` is the same as `embed`, and `add_texts` normalizes the
batch once more afterwards. -/
def newEmbs (env : PyEnv) (rng : Nat) (e : TfidfEmbedder)
    (texts : List String) : List Vec :=
  texts.map (fun t => l2normalize env (TfidfEmbedder.embedOne env rng e t))

/-- A persisted row of the single-slot `embedder_state` table. -/
structure EmbState where
  vocab : List String
  svd : List (List ℚ)
  is_fitted : Bool
deriving DecidableEq

/-- The SQLite database file: `documents (id, content, metadata)`,
`vectors (doc_id, vector)`, the single-row `embedder_state`, and the
`AUTOINCREMENT` counter for `documents.id`.  Rows are kept in insertion
order (ascending id for rows written by this module). -/
structure DB where
  documents : List (Nat × String × MetaMap)
  vectors : List (Nat × Vec)
  embedder_state : Option EmbState
  nextId : Nat
deriving DecidableEq

/-- `SELECT content, metadata FROM documents WHERE id = ?`. -/
def dbGetDocument (db : DB) (docId : Nat) : Option (String × MetaMap) :=
  (db.documents.find? (fun r => r.1 = docId)).map (fun r => r.2)

/-- `UPDATE vectors SET vector = ? WHERE doc_id = ?`. -/
def dbUpdateVector (db : DB) (docId : Nat) (v : Vec) : DB :=
  { db with vectors := db.vectors.map (fun r => if r.1 = docId then (r.1, v) else r) }

/-- `SELECT vector FROM vectors ORDER BY doc_id` — the ordering clause,
modelled by sorting the rows by id. -/
def orderById (rows : List (Nat × Vec)) : List (Nat × Vec) :=
  rows.insertionSort (fun a b => a.1 ≤ b.1)

/-- The in-memory FAISS index `faiss.IndexFlatIP(dimension)`: a flat list
of vectors in insertion order. -/
structure FaissIndex where
  dim : Nat
  vecs : List Vec
deriving DecidableEq

/-- `index.ntotal`. -/
def FaissIndex.ntotal (idx : FaissIndex) : Nat := idx.vecs.length

/-- Inner product of two vectors (`IndexFlatIP` similarity). -/
def dot (u v : Vec) : ℚ := (List.zipWith (· * ·) u v).sum

/-- Sum of squared components (the square of the L2 norm). -/
def sumSq (v : Vec) : ℚ := (v.map (fun x => x * x)).sum

/-- Every stored vector paired with its 0-based index position and its
inner-product similarity to the query, counting from `i`. -/
def scoredFrom (q : Vec) (i : Nat) : List Vec → List (Nat × ℚ)
  | [] => []
  | v :: rest => (i, dot q v) :: scoredFrom q (i + 1) rest

/-- The ranking order of `IndexFlatIP.search` results: higher similarity
first, ties broken by the lower index position. -/
def rankRel (a b : Nat × ℚ) : Prop :=
  b.2 < a.2 ∨ (a.2 = b.2 ∧ a.1 ≤ b.1)

instance : DecidableRel rankRel := fun a b => by
  unfold rankRel; infer_instance

instance : IsTotal (Nat × ℚ) rankRel := ⟨by
  intro a b
  rcases lt_trichotomy a.2 b.2 with h | h | h
  · exact Or.inr (Or.inl h)
  · rcases Nat.le_total a.1 b.1 with h1 | h1
    · exact Or.inl (Or.inr ⟨h, h1⟩)
    · exact Or.inr (Or.inr ⟨h.symm, h1⟩)
  · exact Or.inl (Or.inl h)⟩

instance : IsTrans (Nat × ℚ) rankRel := ⟨by
  intro a b c hab hbc
  rcases hab with h | ⟨he, hi⟩
  · rcases hbc with h2 | ⟨he2, _⟩
    · exact Or.inl (h2.trans h)
    · exact Or.inl (he2 ▸ h)
  · rcases hbc with h2 | ⟨he2, hi2⟩
    · exact Or.inl (he ▸ h2)
    · exact Or.inr ⟨he.trans he2, hi.trans hi2⟩⟩

/-- `index.search(query, k)` of the flat inner-product index, keeping the
scores: rank all stored vectors by `rankRel` and take the best `k`. -/
def faissRank (q : Vec) (k : Nat) (idx : FaissIndex) : List (Nat × ℚ) :=
  ((scoredFrom q 0 idx.vecs).insertionSort rankRel).take k

/-- The index positions returned by `index.search(query, k)` (the
`indices` row; `distances` are discarded by the caller). -/
def faissSearch (q : Vec) (k : Nat) (idx : FaissIndex) : List Nat :=
  (faissRank q k idx).map (fun p => p.1)

/-- A `CrewAIVectorStore` instance: configured dimension, the SQLite
database (committed state), the in-memory embedder object, and the
in-memory FAISS index. -/
structure Store where
  dimension : Nat
  db : DB
  embedder : TfidfEmbedder
  index : FaissIndex
deriving DecidableEq

/-- `CrewAIVectorStore.get_collection_size`: `self.index.ntotal`. -/
def Store.get_collection_size (s : Store) : Nat := s.index.ntotal

/-- `CrewAIVectorStore.__init__`: open the database (`_init_database`
creates the tables if missing and changes no rows), build a fresh
unfitted `TfidfEmbedder`, `_load_embedder` from the single-slot table
(only when the persisted flag is set), create an empty
`faiss.IndexFlatIP`, and `_load_vectors`: add every persisted vector in
ascending `doc_id` order.  The index is never read from storage — it is
always rebuilt here. -/
def CrewAIVectorStore.init (db : DB) (dimension : Nat) : Store :=
  let emb0 := TfidfEmbedder.init dimension
  let emb :=
    match db.embedder_state with
    | some st =>
        if st.is_fitted then
          { emb0 with vocab := st.vocab, svd := st.svd, is_fitted := true }
        else emb0
    | none => emb0
  { dimension := dimension, db := db, embedder := emb,
    index := ⟨dimension, (orderById db.vectors).map (fun r => r.2)⟩ }

/-- The vector-regeneration loop of the re-fit path
(`for i, emb in enumerate(old_embeddings): UPDATE vectors ... WHERE
doc_id = i+1`), with failure injection at iteration `i`; `none` means
the loop raised (the partially updated pending state is discarded by
the rollback in the caller). -/
def updLoop (failAt : Option FailPoint) (i : Nat) :
    List Vec → DB → Option DB
  | [], p => some p
  | e :: rest, p =>
    if failAt = some (.atUpdate i) then none
    else updLoop failAt (i + 1) rest (dbUpdateVector p (i + 1) e)

/-- The same loop without failure injection (its closed form). -/
def updAll (i : Nat) : List Vec → DB → DB
  | [], p => p
  | e :: rest, p => updAll (i + 1) rest (dbUpdateVector p (i + 1) e)

/-- The per-triple insertion loop of `add_texts`: `INSERT INTO documents`
(the new row takes `cursor.lastrowid`, i.e. the autoincrement counter)
followed by `INSERT INTO vectors` for the same id, with failure
injection at iteration `i`. -/
def insLoop (failAt : Option FailPoint) (i : Nat) :
    List (String × MetaMap × Vec) → DB → Option DB
  | [], p => some p
  | (t, m, e) :: rest, p =>
    if failAt = some (.atInsert i) then none
    else
      insLoop failAt (i + 1) rest
        { p with documents := p.documents ++ [(p.nextId, t, m)],
                 vectors := p.vectors ++ [(p.nextId, e)],
                 nextId := p.nextId + 1 }

/-- The insertion loop without failure injection (its closed form). -/
def insAll : List (String × MetaMap × Vec) → DB → DB
  | [], p => p
  | (t, m, e) :: rest, p =>
      insAll rest
        { p with documents := p.documents ++ [(p.nextId, t, m)],
                 vectors := p.vectors ++ [(p.nextId, e)],
                 nextId := p.nextId + 1 }

/-- The document rows written for a batch, ids counting from `n`. -/
def docRows (n : Nat) : List (String × MetaMap × Vec) → List (Nat × String × MetaMap)
  | [] => []
  | (t, m, _) :: rest => (n, t, m) :: docRows (n + 1) rest

/-- The vector rows written for a batch, ids counting from `n`. -/
def vecRows (n : Nat) : List (String × MetaMap × Vec) → List (Nat × Vec)
  | [] => []
  | (_, _, e) :: rest => (n, e) :: vecRows (n + 1) rest

/-- `zip(texts, metadatas, embeddings)` of the insertion loop (Python
`zip` truncates to the shortest argument). -/
def batchRows (texts : List String) (metas : List MetaMap) (embs : List Vec) :
    List (String × MetaMap × Vec) :=
  (texts.zip (metas.zip embs)).map (fun p => (p.1, p.2.1, p.2.2))

/-- The fit-and-regenerate phase at the top of `add_texts` (source lines
356–380).  If the embedder is already fitted it does nothing.  Otherwise
it reads all existing document contents, fits the embedder on
`existing + texts`, persists the new embedder state — `_save_embedder`
issues its own `conn.commit()`, so that write survives a later rollback
— and, when prior documents exist, re-embeds them, resets and refills
the FAISS index with the regenerated vectors, and updates each vector
row.  The `.error` payload is the state visible after the exception is
caught: the committed database, plus the in-memory embedder and index
as already mutated. -/
def fitPhase (env : PyEnv) (rng : Nat) (failAt : Option FailPoint) (s : Store)
    (texts : List String) :
    Except (DB × TfidfEmbedder × FaissIndex) (DB × DB × TfidfEmbedder × FaissIndex) :=
  if s.embedder.is_fitted then .ok (s.db, s.db, s.embedder, s.index)
  else
    let existing := s.db.documents.map (fun r => r.2.1)
    if failAt = some .atFit then .error (s.db, s.embedder, s.index)
    else
      match TfidfEmbedder.fit env rng s.embedder (existing ++ texts) with
      | .error _ => .error (s.db, s.embedder, s.index)
      | .ok emb1 =>
        let pending : DB :=
          { s.db with embedder_state := some ⟨emb1.vocab, emb1.svd, true⟩ }
        if existing.isEmpty then .ok (pending, pending, emb1, s.index)
        else if failAt = some .atEmbedOld then .error (pending, emb1, s.index)
        else
          let old := newEmbs env rng emb1 existing
          let index1 : FaissIndex := ⟨s.index.dim, old⟩
          match updLoop failAt 0 old pending with
          | none => .error (pending, emb1, index1)
          | some pending1 => .ok (pending, pending1, emb1, index1)

/-- What `add_texts` leaves behind: the store as the caller now sees it
(committed database, in-memory embedder and index) and the exception
escaping to the caller, if any. -/
structure AddOutcome where
  store : Store
  raised : Option PyErr
deriving DecidableEq

/-- `CrewAIVectorStore.add_texts(texts, metadatas)`.  An empty batch
returns immediately.  Otherwise, inside one `try` block: the fit phase;
`embed_batch` + `faiss.normalize_L2` on the new texts; the per-triple
insertion loop; `self.index.add(embeddings)` (in-memory, before the
commit); `self.conn.commit()`.  The bare `except` clause calls
`self.conn.rollback()` (discarding pending rows), prints the error, and
returns normally — no exception escapes, and in-memory mutations of the
embedder and the FAISS index performed before the failure persist. -/
def add_texts (env : PyEnv) (rng : Nat) (failAt : Option FailPoint) (s : Store)
    (texts : List String) (metadatas : Option (List MetaMap)) : AddOutcome :=
  if texts.isEmpty then ⟨s, none⟩
  else
    let metas := metadatas.getD (texts.map (fun _ => ([] : MetaMap)))
    match fitPhase env rng failAt s texts with
    | .error (committed, emb1, index1) =>
        ⟨{ s with db := committed, embedder := emb1, index := index1 }, none⟩
    | .ok (committed, pending, emb1, index1) =>
      if failAt = some .atEmbedNew then
        ⟨{ s with db := committed, embedder := emb1, index := index1 }, none⟩
      else
        let embs := newEmbs env rng emb1 texts
        match insLoop failAt 0 (batchRows texts metas embs) pending with
        | none => ⟨{ s with db := committed, embedder := emb1, index := index1 }, none⟩
        | some pending1 =>
          let index2 : FaissIndex := ⟨index1.dim, index1.vecs ++ embs⟩
          if failAt = some .atCommit then
            ⟨{ s with db := committed, embedder := emb1, index := index2 }, none⟩
          else
            ⟨{ s with db := pending1, embedder := emb1, index := index2 }, none⟩

/-- What `similarity_search` leaves behind: the list handed to the caller
and the exception escaping to the caller, if any. -/
structure SearchOutcome where
  results : List Document
  raised : Option PyErr
deriving DecidableEq

/-- `CrewAIVectorStore.similarity_search(query, k)`.  Inside one `try`
block: on an empty index it returns the one-element placeholder list
`[Document("Vector store vuoto")]`; otherwise it embeds the query
(random vector plus console warning when the embedder is unfitted),
normalizes it, clamps `k` to `ntotal`, runs the FAISS search, and maps
each returned index position to document id `position + 1`, skipping
positions whose id is absent from the `documents` table.  The bare
`except` clause prints the error and returns the one-element placeholder
`[Document("Errore nella ricerca")]` — no exception escapes. -/
def similarity_search (env : PyEnv) (rng : Nat) (failAt : Option FailPoint)
    (s : Store) (query : String) (k : Nat) : SearchOutcome :=
  if s.index.ntotal = 0 then ⟨[⟨"Vector store vuoto", []⟩], none⟩
  else if failAt = some .atEmbedQuery then ⟨[⟨"Errore nella ricerca", []⟩], none⟩
  else
    let qe := l2normalize env (TfidfEmbedder.embedOne env rng s.embedder query)
    let kk := min k s.index.ntotal
    let results := (faissSearch qe kk s.index).filterMap (fun i =>
      (dbGetDocument s.db (i + 1)).map (fun r => Document.mk r.1 r.2))
    ⟨results, none⟩

/-- Well-formedness of a database as this module writes it: document ids
are exactly `1..n` in order, vector ids likewise `1..m` with `m = n`
(every document has its vector), and the autoincrement counter is
`n + 1`. -/
def wfDB (db : DB) : Prop :=
  db.documents.map (fun r => r.1) = List.range' 1 db.documents.length ∧
  db.vectors.map (fun r => r.1) = List.range' 1 db.vectors.length ∧
  db.vectors.length = db.documents.length ∧
  db.nextId = db.documents.length + 1

instance (db : DB) : Decidable (wfDB db) := by
  unfold wfDB; infer_instance

/-- The id-to-rank invariant of a live store: the database is
well-formed and the FAISS index holds exactly the persisted vectors in
ascending id order, so index rank `i` (0-based) holds the vector of
document id `i + 1`. -/
def storeInv (s : Store) : Prop :=
  wfDB s.db ∧ s.index.vecs = s.db.vectors.map (fun r => r.2)

instance (s : Store) : Decidable (storeInv s) := by
  unfold storeInv; infer_instance

/-! ### Closed forms of the cursor loops and basic list facts -/

theorem insLoop_none (rows : List (String × MetaMap × Vec)) :
    ∀ (i : Nat) (p : DB), insLoop none i rows p = some (insAll rows p) := by
  induction rows with
  | nil => intro i p; rfl
  | cons r rest ih =>
    intro i p
    obtain ⟨t, m, e⟩ := r
    simp only [insLoop, insAll, reduceCtorEq, if_false, ih]

theorem insAll_eq (rows : List (String × MetaMap × Vec)) :
    ∀ (p : DB), insAll rows p =
      { p with documents := p.documents ++ docRows p.nextId rows,
               vectors := p.vectors ++ vecRows p.nextId rows,
               nextId := p.nextId + rows.length } := by
  induction rows with
  | nil => intro p; simp [insAll, docRows, vecRows]
  | cons r rest ih =>
    intro p
    obtain ⟨t, m, e⟩ := r
    rw [insAll, ih]
    simp [docRows, vecRows, List.append_assoc]
    omega

theorem docRows_map_fst (rows : List (String × MetaMap × Vec)) :
    ∀ (n : Nat), (docRows n rows).map (fun r => r.1) = List.range' n rows.length := by
  induction rows with
  | nil => intro n; rfl
  | cons r rest ih =>
    intro n
    obtain ⟨t, m, e⟩ := r
    simp [docRows, ih, List.range'_succ]

theorem vecRows_map_fst (rows : List (String × MetaMap × Vec)) :
    ∀ (n : Nat), (vecRows n rows).map (fun r => r.1) = List.range' n rows.length := by
  induction rows with
  | nil => intro n; rfl
  | cons r rest ih =>
    intro n
    obtain ⟨t, m, e⟩ := r
    simp [vecRows, ih, List.range'_succ]

theorem vecRows_map_snd (rows : List (String × MetaMap × Vec)) :
    ∀ (n : Nat), (vecRows n rows).map (fun r => r.2) = rows.map (fun r => r.2.2) := by
  induction rows with
  | nil => intro n; rfl
  | cons r rest ih =>
    intro n
    obtain ⟨t, m, e⟩ := r
    simp [vecRows, ih]

theorem docRows_length (rows : List (String × MetaMap × Vec)) :
    ∀ (n : Nat), (docRows n rows).length = rows.length := by
  induction rows with
  | nil => intro n; rfl
  | cons r rest ih =>
    intro n
    obtain ⟨t, m, e⟩ := r
    simp [docRows, ih]

theorem vecRows_length (rows : List (String × MetaMap × Vec)) :
    ∀ (n : Nat), (vecRows n rows).length = rows.length := by
  induction rows with
  | nil => intro n; rfl
  | cons r rest ih =>
    intro n
    obtain ⟨t, m, e⟩ := r
    simp [vecRows, ih]

theorem updLoop_none (embs : List Vec) :
    ∀ (i : Nat) (p : DB), updLoop none i embs p = some (updAll i embs p) := by
  induction embs with
  | nil => intro i p; rfl
  | cons e rest ih =>
    intro i p
    simp only [updLoop, updAll, reduceCtorEq, if_false, ih]

theorem map_id_of_mem {α : Type} (l : List α) (f : α → α)
    (h : ∀ a ∈ l, f a = a) : l.map f = l := by
  induction l with
  | nil => rfl
  | cons a rest ih =>
    rw [List.map_cons, h a (List.mem_cons_self a rest),
      ih (fun b hb => h b (List.mem_cons_of_mem a hb))]

theorem updAll_spec (embs : List Vec) :
    ∀ (i : Nat) (p : DB) (done todo : List (Nat × Vec)),
      p.vectors = done ++ todo →
      (∀ r ∈ done, r.1 ≤ i) →
      todo.map (fun r => r.1) = List.range' (i + 1) todo.length →
      embs.length = todo.length →
      (updAll i embs p).vectors =
        done ++ List.zipWith (fun r e => (r.1, e)) todo embs := by
  induction embs with
  | nil =>
    intro i p done todo hv _ _ hlen
    have : todo = [] := List.eq_nil_of_length_eq_zero hlen.symm
    subst this
    simpa [updAll] using hv
  | cons e rest ih =>
    intro i p done todo hv hdone hids hlen
    cases todo with
    | nil => simp at hlen
    | cons t todo' =>
      rw [List.length_cons, List.range'_succ] at hids
      simp only [List.map_cons, List.cons.injEq] at hids
      obtain ⟨ht, hids'⟩ := hids
      rw [updAll]
      have hup : (dbUpdateVector p (i + 1) e).vectors =
          (done ++ [(t.1, e)]) ++ todo' := by
        unfold dbUpdateVector
        rw [hv, List.map_append, List.map_cons]
        have h1 : done.map (fun r => if r.1 = i + 1 then (r.1, e) else r) = done := by
          apply map_id_of_mem
          intro r hr
          rw [if_neg]
          exact fun hcon => absurd (hcon ▸ hdone r hr) (by omega)
        have h2 : (if t.1 = i + 1 then (t.1, e) else t) = (t.1, e) := by
          rw [if_pos ht, ht]
        have h3 : todo'.map (fun r => if r.1 = i + 1 then (r.1, e) else r) = todo' := by
          apply map_id_of_mem
          intro r hr
          rw [if_neg]
          have hmem : r.1 ∈ todo'.map (fun r => r.1) := List.mem_map_of_mem _ hr
          rw [hids'] at hmem
          have := List.mem_range'_1.mp hmem
          omega
        rw [h1, h2, h3]
        simp [List.append_assoc]
      have hrec := ih (i + 1) (dbUpdateVector p (i + 1) e) (done ++ [(t.1, e)]) todo'
        hup
        (by
          intro r hr
          rcases List.mem_append.mp hr with h | h
          · exact Nat.le_succ_of_le (hdone r h)
          · simp only [List.mem_singleton] at h
            subst h; omega)
        (by simpa using hids')
        (by
          have : rest.length = todo'.length := by simpa using hlen
          exact this)
      rw [hrec, List.zipWith_cons_cons]
      simp [List.append_assoc, ht]

theorem batchRows_map_thd (texts : List String) :
    ∀ (metas : List MetaMap) (embs : List Vec),
      metas.length = texts.length → embs.length = texts.length →
      (batchRows texts metas embs).map (fun r => r.2.2) = embs := by
  induction texts with
  | nil =>
    intro metas embs _ he
    have : embs = [] := List.eq_nil_of_length_eq_zero he
    subst this; rfl
  | cons t rest ih =>
    intro metas embs hm he
    cases metas with
    | nil => simp at hm
    | cons m metas' =>
      cases embs with
      | nil => simp at he
      | cons e embs' =>
        have hm' : metas'.length = rest.length := by simpa using hm
        have he' : embs'.length = rest.length := by simpa using he
        have ihh := ih metas' embs' hm' he'
        simp only [batchRows, List.zip_cons_cons, List.map_cons]
        simp only [batchRows] at ihh
        rw [ihh]

theorem batchRows_map_fst (texts : List String) :
    ∀ (metas : List MetaMap) (embs : List Vec),
      metas.length = texts.length → embs.length = texts.length →
      (batchRows texts metas embs).map (fun r => r.1) = texts := by
  induction texts with
  | nil => intro metas embs _ _; rfl
  | cons t rest ih =>
    intro metas embs hm he
    cases metas with
    | nil => simp at hm
    | cons m metas' =>
      cases embs with
      | nil => simp at he
      | cons e embs' =>
        have hm' : metas'.length = rest.length := by simpa using hm
        have he' : embs'.length = rest.length := by simpa using he
        have ihh := ih metas' embs' hm' he'
        simp only [batchRows, List.zip_cons_cons, List.map_cons]
        simp only [batchRows] at ihh
        rw [ihh]

theorem batchRows_length (texts : List String) :
    ∀ (metas : List MetaMap) (embs : List Vec),
      metas.length = texts.length → embs.length = texts.length →
      (batchRows texts metas embs).length = texts.length := by
  intro metas embs hm he
  have := batchRows_map_fst texts metas embs hm he
  calc (batchRows texts metas embs).length
      = ((batchRows texts metas embs).map (fun r => r.1)).length := by
        rw [List.length_map]
    _ = texts.length := by rw [this]

theorem range'_one_append (n m : Nat) :
    List.range' 1 n ++ List.range' (n + 1) m = List.range' 1 (n + m) := by
  have := List.range'_append 1 n m 1
  simpa [Nat.add_comm, Nat.one_mul] using this

theorem sorted_le_range' (s n : Nat) :
    List.Pairwise (· ≤ ·) (List.range' s n) :=
  (List.pairwise_lt_range' s n 1 (by omega)).imp (fun h => Nat.le_of_lt h)

theorem orderById_of_range' (rows : List (Nat × Vec)) (n : Nat)
    (h : rows.map (fun r => r.1) = List.range' 1 n) :
    orderById rows = rows := by
  apply List.Sorted.insertionSort_eq
  have : List.Pairwise (· ≤ ·) (rows.map (fun r => r.1)) := by
    rw [h]; exact sorted_le_range' 1 n
  exact (List.pairwise_map).mp this

theorem updLoop_skip (embs : List Vec) :
    ∀ (failAt : Option FailPoint) (j : Nat) (p : DB),
      (∀ m, j ≤ m → m < j + embs.length → failAt ≠ some (.atUpdate m)) →
      updLoop failAt j embs p = some (updAll j embs p) := by
  induction embs with
  | nil => intro failAt j p _; rfl
  | cons e rest ih =>
    intro failAt j p h
    rw [updLoop, updAll, if_neg (h j (Nat.le_refl j) (by simp))]
    exact ih failAt (j + 1) _ (fun m h1 h2 => h m (by omega) (by simp; omega))

theorem updLoop_fails (embs : List Vec) :
    ∀ (j i : Nat) (p : DB), j ≤ i → i < j + embs.length →
      updLoop (some (.atUpdate i)) j embs p = none := by
  induction embs with
  | nil => intro j i p h1 h2; simp at h2; omega
  | cons e rest ih =>
    intro j i p h1 h2
    rw [updLoop]
    by_cases hij : i = j
    · rw [if_pos (by rw [hij])]
    · rw [if_neg (by simp; omega)]
      exact ih (j + 1) i _ (by omega) (by simp at h2 ⊢; omega)

theorem insLoop_skip (rows : List (String × MetaMap × Vec)) :
    ∀ (failAt : Option FailPoint) (j : Nat) (p : DB),
      (∀ m, j ≤ m → m < j + rows.length → failAt ≠ some (.atInsert m)) →
      insLoop failAt j rows p = some (insAll rows p) := by
  induction rows with
  | nil => intro failAt j p _; rfl
  | cons r rest ih =>
    intro failAt j p h
    obtain ⟨t, m, e⟩ := r
    rw [insLoop, insAll, if_neg (h j (Nat.le_refl j) (by simp))]
    exact ih failAt (j + 1) _ (fun m h1 h2 => h m (by omega) (by simp; omega))

theorem insLoop_fails (rows : List (String × MetaMap × Vec)) :
    ∀ (j i : Nat) (p : DB), j ≤ i → i < j + rows.length →
      insLoop (some (.atInsert i)) j rows p = none := by
  induction rows with
  | nil => intro j i p h1 h2; simp at h2; omega
  | cons r rest ih =>
    intro j i p h1 h2
    obtain ⟨t, m, e⟩ := r
    rw [insLoop]
    by_cases hij : i = j
    · rw [if_pos (by rw [hij])]
    · rw [if_neg (by simp; omega)]
      exact ih (j + 1) i _ (by omega) (by simp at h2 ⊢; omega)

theorem updAll_documents (embs : List Vec) :
    ∀ (i : Nat) (p : DB), (updAll i embs p).documents = p.documents := by
  induction embs with
  | nil => intro i p; rfl
  | cons e rest ih => intro i p; rw [updAll, ih]; rfl

theorem updAll_nextId (embs : List Vec) :
    ∀ (i : Nat) (p : DB), (updAll i embs p).nextId = p.nextId := by
  induction embs with
  | nil => intro i p; rfl
  | cons e rest ih => intro i p; rw [updAll, ih]; rfl

theorem updAll_embState (embs : List Vec) :
    ∀ (i : Nat) (p : DB), (updAll i embs p).embedder_state = p.embedder_state := by
  induction embs with
  | nil => intro i p; rfl
  | cons e rest ih => intro i p; rw [updAll, ih]; rfl

theorem zipWith_keepFst_map_fst (rows : List (Nat × Vec)) :
    ∀ (embs : List Vec), embs.length = rows.length →
      (List.zipWith (fun r e => (r.1, e)) rows embs).map (fun r => r.1) =
        rows.map (fun r => r.1) := by
  induction rows with
  | nil => intro embs _; simp
  | cons r rest ih =>
    intro embs he
    cases embs with
    | nil => simp at he
    | cons e embs' =>
      have : embs'.length = rest.length := by simpa using he
      simp [ih embs' this]

theorem zipWith_keepFst_map_snd (rows : List (Nat × Vec)) :
    ∀ (embs : List Vec), embs.length = rows.length →
      (List.zipWith (fun r e => (r.1, e)) rows embs).map (fun r => r.2) = embs := by
  induction rows with
  | nil =>
    intro embs he
    have : embs = [] := List.eq_nil_of_length_eq_zero he
    subst this; simp
  | cons r rest ih =>
    intro embs he
    cases embs with
    | nil => simp at he
    | cons e embs' =>
      have : embs'.length = rest.length := by simpa using he
      simp [ih embs' this]

theorem newEmbs_length (env : PyEnv) (rng : Nat) (e : TfidfEmbedder)
    (texts : List String) : (newEmbs env rng e texts).length = texts.length := by
  unfold newEmbs
  rw [List.length_map]

/-! ### Characterizations of the phases of `add_texts` -/

theorem fitPhase_fitted (env : PyEnv) (rng : Nat) (failAt : Option FailPoint)
    (s : Store) (texts : List String) (h : s.embedder.is_fitted = true) :
    fitPhase env rng failAt s texts = .ok (s.db, s.db, s.embedder, s.index) := by
  unfold fitPhase
  rw [if_pos h]

/-- The re-fit phase, without failure, on a store with no prior
documents: fit on the batch alone and persist the embedder state. -/
theorem fitPhase_none_unfit_first (env : PyEnv) (rng : Nat) (s : Store)
    (texts : List String) (hf : s.embedder.is_fitted = false)
    (ht : texts.isEmpty = false) (hd : s.db.documents = []) :
    fitPhase env rng none s texts =
      (let emb1 := TfidfEmbedder.fitResult env rng s.embedder texts
       let pending : DB := { s.db with embedder_state := some ⟨emb1.vocab, emb1.svd, true⟩ }
       .ok (pending, pending, emb1, s.index)) := by
  unfold fitPhase TfidfEmbedder.fit
  rw [if_neg (by rw [hf]; simp), hd]
  simp [ht]

/-- The re-fit phase, without failure, on a store with prior documents:
fit on `existing ++ texts`, persist the embedder state, re-embed the
prior contents, reset-and-refill the index with them, and update every
vector row. -/
theorem fitPhase_none_unfit_refit (env : PyEnv) (rng : Nat) (s : Store)
    (texts : List String) (hf : s.embedder.is_fitted = false)
    (hd : s.db.documents.isEmpty = false) :
    fitPhase env rng none s texts =
      (let existing := s.db.documents.map (fun r => r.2.1)
       let emb1 := TfidfEmbedder.fitResult env rng s.embedder (existing ++ texts)
       let pending : DB := { s.db with embedder_state := some ⟨emb1.vocab, emb1.svd, true⟩ }
       let old := newEmbs env rng emb1 existing
       .ok (pending, updAll 0 old pending, emb1, ⟨s.index.dim, old⟩)) := by
  unfold fitPhase TfidfEmbedder.fit
  rw [if_neg (by rw [hf]; simp)]
  have hex : (s.db.documents.map (fun r => r.2.1)).isEmpty = false := by
    cases hcase : s.db.documents with
    | nil => rw [hcase] at hd; simp at hd
    | cons a l => simp
  have hall : ((s.db.documents.map (fun r => r.2.1)) ++ texts).isEmpty = false := by
    cases hcase : s.db.documents.map (fun r => r.2.1) with
    | nil => rw [hcase] at hex; simp at hex
    | cons a l => simp
  simp only [reduceCtorEq, if_false, hall, hex, Bool.false_eq_true]
  rw [updLoop_skip _ none 0 _ (fun m _ _ => by simp)]

/-- `fitPhase` ignores failure injections that name points outside it. -/
theorem fitPhase_other_fail (env : PyEnv) (rng : Nat) (fp : FailPoint)
    (s : Store) (texts : List String)
    (h1 : fp ≠ .atFit) (h2 : fp ≠ .atEmbedOld) (h3 : ∀ i, fp ≠ .atUpdate i) :
    fitPhase env rng (some fp) s texts = fitPhase env rng none s texts := by
  by_cases hfit : s.embedder.is_fitted
  · rw [fitPhase_fitted env rng (some fp) s texts hfit,
      fitPhase_fitted env rng none s texts hfit]
  · have e1 : (some fp = some FailPoint.atFit) = False := by simp [h1]
    have e2 : (some fp = some FailPoint.atEmbedOld) = False := by simp [h2]
    have e3 : ((none : Option FailPoint) = some FailPoint.atFit) = False := by simp
    have e4 : ((none : Option FailPoint) = some FailPoint.atEmbedOld) = False := by simp
    simp only [fitPhase, hfit, if_false, e1, e2, e3, e4]
    cases hres : TfidfEmbedder.fit env rng s.embedder
        ((s.db.documents.map (fun r => r.2.1)) ++ texts) with
    | error e => rfl
    | ok emb1 =>
      by_cases hex : (s.db.documents.map (fun r => r.2.1)).isEmpty
      · simp [hex]
      · simp only [hex, if_false, Bool.false_eq_true]
        rw [updLoop_skip _ (some fp) 0 _ (fun m _ _ => by simpa using h3 m),
          updLoop_skip _ none 0 _ (fun m _ _ => by simp)]

/-- `add_texts` without failure, given the outcome of its fit phase:
embed the batch, run the insertion loop, append to the index, commit. -/
theorem add_texts_none_of_fitPhase (env : PyEnv) (rng : Nat) (s : Store)
    (texts : List String) (metadatas : Option (List MetaMap))
    (committed pending : DB) (emb1 : TfidfEmbedder) (index1 : FaissIndex)
    (ht : texts.isEmpty = false)
    (hfp : fitPhase env rng none s texts = .ok (committed, pending, emb1, index1)) :
    add_texts env rng none s texts metadatas =
      ⟨{ s with
          db := insAll (batchRows texts (metadatas.getD (texts.map (fun _ => [])))
                  (newEmbs env rng emb1 texts)) pending,
          embedder := emb1,
          index := ⟨index1.dim, index1.vecs ++ newEmbs env rng emb1 texts⟩ },
        none⟩ := by
  unfold add_texts
  rw [ht]
  simp only [Bool.false_eq_true, if_false, hfp, reduceCtorEq]
  rw [insLoop_skip _ none 0 _ (fun m _ _ => by simp)]

/-! ### Concrete instantiations of the external environment, for witnesses
and counterexamples. -/

/-- A concrete external environment: the vectorizer keeps the corpus as
vocabulary, every TF-IDF row is `[1]`, the SVD components record the RNG
state they were fitted at (the randomized algorithm draws from the
global RNG), norms evaluate to `1`, and `np.random.randn` draws the
all-ones vector. -/
def envW : PyEnv :=
  { fitVec := fun ts => ts,
    vocabSize := fun v => v.length,
    transform := fun _ _ => [1],
    fitSvd := fun rng _ _ _ => [[(rng : ℚ)]],
    svdTransform := fun _ v => v,
    norm := fun _ => 1,
    randn := fun _ d => List.replicate d 1 }

/-- A database with no rows at all (a fresh `.db` file). -/
def emptyDB : DB := ⟨[], [], none, 1⟩

/-- A store constructed on a fresh database. -/
def emptyStore : Store := CrewAIVectorStore.init emptyDB 1000

/-- A committed database with one document, its unit vector, and a
fitted embedder state, dimension 1. -/
def dbOne : DB := ⟨[(1, "d", [])], [(1, [1])], some ⟨["w"], [], true⟩, 2⟩

/-- The store loaded from `dbOne`. -/
def stOne : Store := CrewAIVectorStore.init dbOne 1

/-- Like `dbOne` but the persisted vector is `[1/2]` instead of `[1]`. -/
def dbHalf : DB := ⟨[(1, "d", [])], [(1, [1/2])], some ⟨["w"], [], true⟩, 2⟩

/-- The store loaded from `dbHalf`. -/
def stHalf : Store := CrewAIVectorStore.init dbHalf 1

/-- Two documents with identical stored vectors: a similarity tie. -/
def dbTie : DB :=
  ⟨[(1, "a", []), (2, "b", [])], [(1, [1]), (2, [1])], some ⟨["w"], [], true⟩, 3⟩

/-- The store loaded from `dbTie`. -/
def stTie : Store := CrewAIVectorStore.init dbTie 1

/-- One persisted document but no embedder state: the next `add_texts`
takes the re-fit path. -/
def dbPre : DB := ⟨[(1, "a", [])], [(1, [5])], none, 2⟩

/-- The store loaded from `dbPre`; its embedder is unfitted. -/
def stPre : Store := CrewAIVectorStore.init dbPre 1

/-- A fresh, unfitted embedder of dimension 1. -/
def unfitOne : TfidfEmbedder := TfidfEmbedder.init 1

/-- A fitted embedder of dimension 1 whose TF-IDF pipeline under `envW`
produces the unit vector `[1]`. -/
def fitOne : TfidfEmbedder := ⟨1, ["w"], [], true⟩

/-! ### C4 — startup rebuild -/

/-- C4, confirmed.  Constructing a fresh store on a persisted database
whose vector rows carry ids `1..m` leaves every table untouched
(documents, with their ids and contents, are exactly what the previous
session committed), and rebuilds the in-memory index from scratch as
exactly the persisted vectors in ascending id order, so `size()` equals
the number of persisted vector rows.  The index contents are a pure
function of the database rows — nothing of a previous in-memory index
is consulted, it is always rebuilt. -/
theorem c4_init_rebuilds_index_from_rows (db : DB) (dimension : Nat)
    (hsorted : db.vectors.map (fun r => r.1) = List.range' 1 db.vectors.length) :
    (CrewAIVectorStore.init db dimension).db = db ∧
    (CrewAIVectorStore.init db dimension).get_collection_size = db.vectors.length ∧
    (CrewAIVectorStore.init db dimension).index.vecs = db.vectors.map (fun r => r.2) := by
  refine ⟨rfl, ?_, ?_⟩
  · show ((orderById db.vectors).map (fun r => r.2)).length = db.vectors.length
    rw [orderById_of_range' db.vectors _ hsorted, List.length_map]
  · show (orderById db.vectors).map (fun r => r.2) = db.vectors.map (fun r => r.2)
    rw [orderById_of_range' db.vectors _ hsorted]

/-- C4, witness: reloading the concrete one-document database. -/
theorem c4_init_rebuilds_index_from_rows_witness :
    (CrewAIVectorStore.init dbOne 1).db = dbOne ∧
    (CrewAIVectorStore.init dbOne 1).get_collection_size = dbOne.vectors.length ∧
    (CrewAIVectorStore.init dbOne 1).index.vecs = dbOne.vectors.map (fun r => r.2) :=
  c4_init_rebuilds_index_from_rows dbOne 1 (by decide)

/-! ### C6 — the id-to-rank invariant -/

/-- Appending one batch through the insertion loop to a well-formed
pending database, and its embeddings to an index holding exactly the
pending vectors, yields a store satisfying the id-to-rank invariant. -/
theorem storeInv_mk_insAll (dim : Nat) (emb : TfidfEmbedder) (idim : Nat)
    (pending : DB) (ivecs : List Vec) (rows : List (String × MetaMap × Vec)) (n : Nat)
    (hdocs : pending.documents.map (fun r => r.1) = List.range' 1 n)
    (hdlen : pending.documents.length = n)
    (hvecs : pending.vectors.map (fun r => r.1) = List.range' 1 n)
    (hvlen : pending.vectors.length = n)
    (hnext : pending.nextId = n + 1)
    (hidx : ivecs = pending.vectors.map (fun r => r.2)) :
    storeInv ⟨dim, insAll rows pending,
      emb, ⟨idim, ivecs ++ rows.map (fun r => r.2.2)⟩⟩ := by
  rw [insAll_eq]
  constructor
  · refine ⟨?_, ?_, ?_, ?_⟩
    · show (pending.documents ++ docRows pending.nextId rows).map (fun r => r.1) =
        List.range' 1 (pending.documents ++ docRows pending.nextId rows).length
      rw [List.map_append, hdocs, docRows_map_fst, hnext, range'_one_append,
        List.length_append, docRows_length, hdlen]
    · show (pending.vectors ++ vecRows pending.nextId rows).map (fun r => r.1) =
        List.range' 1 (pending.vectors ++ vecRows pending.nextId rows).length
      rw [List.map_append, hvecs, vecRows_map_fst, hnext, range'_one_append,
        List.length_append, vecRows_length, hvlen]
    · show (pending.vectors ++ vecRows pending.nextId rows).length =
        (pending.documents ++ docRows pending.nextId rows).length
      rw [List.length_append, List.length_append, vecRows_length, docRows_length,
        hvlen, hdlen]
    · show pending.nextId + rows.length =
        (pending.documents ++ docRows pending.nextId rows).length + 1
      rw [List.length_append, docRows_length, hdlen, hnext]
      omega
  · show ivecs ++ rows.map (fun r => r.2.2) =
      (pending.vectors ++ vecRows pending.nextId rows).map (fun r => r.2)
    rw [List.map_append, vecRows_map_snd, hidx]

/-- C6, confirmed.  The id-to-rank correspondence — index rank `i`
(0-based) holds the vector persisted for document id `i + 1`, and ids
run consecutively from 1 — is (a) established by the startup rebuild on
any well-formed database, and (b) preserved by every successful
`add_texts`, including its re-fit regeneration path, whenever the
metadata list (explicit or defaulted) matches the batch length. -/
theorem c6_id_rank_invariant_preserved :
    (∀ (db : DB) (dimension : Nat), wfDB db →
       storeInv (CrewAIVectorStore.init db dimension)) ∧
    (∀ (env : PyEnv) (rng : Nat) (s : Store) (texts : List String)
       (metadatas : Option (List MetaMap)),
       storeInv s →
       (metadatas.getD (texts.map (fun _ => []))).length = texts.length →
       storeInv (add_texts env rng none s texts metadatas).store) := by
  constructor
  · intro db dimension hwf
    obtain ⟨hdocs, hvecs, hlen, hnext⟩ := hwf
    constructor
    · exact ⟨hdocs, hvecs, hlen, hnext⟩
    · show (orderById db.vectors).map (fun r => r.2) = db.vectors.map (fun r => r.2)
      rw [orderById_of_range' db.vectors _ hvecs]
  · intro env rng s texts metadatas hinv hm
    obtain ⟨⟨hdocs, hvecs, hlen, hnext⟩, hidx⟩ := hinv
    cases hte : texts.isEmpty with
    | true =>
      have : texts = [] := by
        cases texts with
        | nil => rfl
        | cons a l => simp at hte
      subst this
      exact ⟨⟨hdocs, hvecs, hlen, hnext⟩, hidx⟩
    | false =>
      have hvecs' : s.db.vectors.map (fun r => r.1) =
          List.range' 1 s.db.documents.length := by rw [hvecs, hlen]
      cases hfit : s.embedder.is_fitted with
      | true =>
        rw [add_texts_none_of_fitPhase env rng s texts metadatas s.db s.db
          s.embedder s.index hte (fitPhase_fitted env rng none s texts hfit)]
        have he : (newEmbs env rng s.embedder texts).length = texts.length :=
          newEmbs_length env rng s.embedder texts
        have hthd := batchRows_map_thd texts
          (metadatas.getD (texts.map (fun _ => []))) (newEmbs env rng s.embedder texts)
          hm he
        have := storeInv_mk_insAll s.dimension s.embedder s.index.dim s.db s.index.vecs
          (batchRows texts (metadatas.getD (texts.map (fun _ => [])))
            (newEmbs env rng s.embedder texts))
          s.db.documents.length hdocs rfl hvecs' (by rw [hlen]) hnext hidx
        rw [hthd] at this
        exact this
      | false =>
        cases hdocnil : s.db.documents.isEmpty with
        | true =>
          have hdnil : s.db.documents = [] := by
            cases h : s.db.documents with
            | nil => rfl
            | cons a l => rw [h] at hdocnil; simp at hdocnil
          rw [add_texts_none_of_fitPhase env rng s texts metadatas _ _ _ _ hte
            (fitPhase_none_unfit_first env rng s texts hfit hte hdnil)]
          have he : (newEmbs env rng
              (TfidfEmbedder.fitResult env rng s.embedder texts) texts).length =
              texts.length := newEmbs_length env rng _ texts
          have hthd := batchRows_map_thd texts
            (metadatas.getD (texts.map (fun _ => [])))
            (newEmbs env rng (TfidfEmbedder.fitResult env rng s.embedder texts) texts)
            hm he
          have := storeInv_mk_insAll s.dimension
            (TfidfEmbedder.fitResult env rng s.embedder texts) s.index.dim
            { s.db with embedder_state := some (EmbState.mk
                (TfidfEmbedder.fitResult env rng s.embedder texts).vocab
                (TfidfEmbedder.fitResult env rng s.embedder texts).svd true) }
            s.index.vecs
            (batchRows texts (metadatas.getD (texts.map (fun _ => [])))
              (newEmbs env rng (TfidfEmbedder.fitResult env rng s.embedder texts) texts))
            s.db.documents.length hdocs rfl hvecs' (by rw [hlen]) hnext hidx
          rw [hthd] at this
          exact this
        | false =>
          rw [add_texts_none_of_fitPhase env rng s texts metadatas _ _ _ _ hte
            (fitPhase_none_unfit_refit env rng s texts hfit hdocnil)]
          set existing := s.db.documents.map (fun r => r.2.1) with hexisting
          set emb1 := TfidfEmbedder.fitResult env rng s.embedder (existing ++ texts)
            with hemb1
          set pendingE : DB :=
            { s.db with embedder_state := some ⟨emb1.vocab, emb1.svd, true⟩ }
            with hpendingE
          set old := newEmbs env rng emb1 existing with hold
          have holdlen : old.length = s.db.documents.length := by
            rw [hold, newEmbs_length, hexisting, List.length_map]
          have hvlen0 : s.db.vectors.length = s.db.documents.length := hlen
          have hpvecs : pendingE.vectors = s.db.vectors := rfl
          have hspec := updAll_spec old 0 pendingE [] pendingE.vectors
            (by rw [List.nil_append])
            (by intro r hr; exact absurd hr (List.not_mem_nil r))
            (by rw [hpvecs, hvecs])
            (by rw [holdlen, hpvecs, hvlen0])
          rw [List.nil_append] at hspec
          have hzlen : old.length = pendingE.vectors.length := by
            rw [holdlen, hpvecs, hvlen0]
          have he : (newEmbs env rng emb1 texts).length = texts.length :=
            newEmbs_length env rng emb1 texts
          have hthd := batchRows_map_thd texts
            (metadatas.getD (texts.map (fun _ => []))) (newEmbs env rng emb1 texts)
            hm he
          have := storeInv_mk_insAll s.dimension emb1 s.index.dim
            (updAll 0 old pendingE) old
            (batchRows texts (metadatas.getD (texts.map (fun _ => [])))
              (newEmbs env rng emb1 texts))
            s.db.documents.length
            (by rw [updAll_documents]; exact hdocs)
            (by rw [updAll_documents])
            (by
              rw [hspec, zipWith_keepFst_map_fst _ old hzlen, hpvecs]
              exact hvecs')
            (by
              rw [hspec, List.length_zipWith, hzlen, Nat.min_self]
              exact hlen)
            (by rw [updAll_nextId]; exact hnext)
            (by rw [hspec, zipWith_keepFst_map_snd _ old hzlen])
          rw [hthd] at this
          exact this

/-- C6, witness: the preservation half applied to the concrete fitted
one-document store and a one-text batch. -/
theorem c6_id_rank_invariant_preserved_witness :
    storeInv (add_texts envW 0 none stOne ["x"] none).store :=
  c6_id_rank_invariant_preserved.2 envW 0 stOne ["x"] none (by decide) (by decide)

/-! ### C7 — the re-fit transition -/

theorem fitResult_is_fitted (env : PyEnv) (rng : Nat) (e : TfidfEmbedder)
    (texts : List String) :
    (TfidfEmbedder.fitResult env rng e texts).is_fitted = true := by
  show (if env.vocabSize (env.fitVec texts) > e.dimension then
      { e with vocab := env.fitVec texts,
               svd := env.fitSvd rng (min e.dimension 1000) (env.fitVec texts) texts,
               is_fitted := true }
    else { e with vocab := env.fitVec texts, is_fitted := true }).is_fitted = true
  split <;> rfl

/-- C7, confirmed.  Starting from a store satisfying the id-to-rank
invariant whose locally fitted embedder is unfitted, a successful
`add_texts` with `M` new texts (metadata list matching): fits the
embedder on `existingContents ++ texts` (so it is fitted afterwards);
leaves every pre-existing document row — id, content, metadata —
unchanged; rewrites every pre-existing vector row, in place under its
original id `1..N`, with the re-embedding of that document's content
under the freshly fitted embedder; rebuilds the index as exactly those
regenerated vectors in ascending id order followed by the new batch; and
ends with `size() = N + M`. -/
theorem c7_refit_regenerates_and_preserves_documents (env : PyEnv) (rng : Nat)
    (s : Store) (texts : List String) (metadatas : Option (List MetaMap))
    (hinv : storeInv s) (hunfit : s.embedder.is_fitted = false)
    (hte : texts.isEmpty = false)
    (hm : (metadatas.getD (texts.map (fun _ => []))).length = texts.length) :
    (add_texts env rng none s texts metadatas).store.embedder =
      TfidfEmbedder.fitResult env rng s.embedder
        ((s.db.documents.map (fun r => r.2.1)) ++ texts) ∧
    (add_texts env rng none s texts metadatas).store.embedder.is_fitted = true ∧
    (add_texts env rng none s texts metadatas).store.get_collection_size =
      s.db.documents.length + texts.length ∧
    (add_texts env rng none s texts metadatas).store.db.documents.take
      s.db.documents.length = s.db.documents ∧
    (add_texts env rng none s texts metadatas).store.db.documents.length =
      s.db.documents.length + texts.length ∧
    ((add_texts env rng none s texts metadatas).store.db.vectors.take
      s.db.documents.length).map (fun r => r.1) =
      List.range' 1 s.db.documents.length ∧
    ((add_texts env rng none s texts metadatas).store.db.vectors.take
      s.db.documents.length).map (fun r => r.2) =
      newEmbs env rng (add_texts env rng none s texts metadatas).store.embedder
        (s.db.documents.map (fun r => r.2.1)) ∧
    (add_texts env rng none s texts metadatas).store.index.vecs =
      newEmbs env rng (add_texts env rng none s texts metadatas).store.embedder
        (s.db.documents.map (fun r => r.2.1)) ++
      newEmbs env rng (add_texts env rng none s texts metadatas).store.embedder
        texts := by
  obtain ⟨⟨hdocs, hvecs, hlen, hnext⟩, hidx⟩ := hinv
  cases hdocnil : s.db.documents.isEmpty with
  | true =>
    have hdnil : s.db.documents = [] := by
      cases h : s.db.documents with
      | nil => rfl
      | cons a l => rw [h] at hdocnil; simp at hdocnil
    have hvnil : s.db.vectors = [] := by
      have : s.db.vectors.length = 0 := by rw [hlen, hdnil]; rfl
      exact List.eq_nil_of_length_eq_zero this
    have hinil : s.index.vecs = [] := by rw [hidx, hvnil]; rfl
    rw [add_texts_none_of_fitPhase env rng s texts metadatas _ _ _ _ hte
      (fitPhase_none_unfit_first env rng s texts hunfit hte hdnil)]
    rw [insAll_eq]
    have hrfl : TfidfEmbedder.fitResult env rng s.embedder texts =
        TfidfEmbedder.fitResult env rng s.embedder
          ((s.db.documents.map (fun r => r.2.1)) ++ texts) := by
      rw [hdnil]; rfl
    refine ⟨hrfl, fitResult_is_fitted env rng s.embedder _, ?_, ?_, ?_, ?_, ?_, ?_⟩
    · show (s.index.vecs ++
        newEmbs env rng (TfidfEmbedder.fitResult env rng s.embedder texts) texts).length =
        s.db.documents.length + texts.length
      rw [List.length_append, hinil, hdnil, newEmbs_length]
      rfl
    · rw [hdnil]; rfl
    · show (s.db.documents ++ docRows _ _).length = s.db.documents.length + texts.length
      rw [List.length_append, docRows_length, hdnil,
        batchRows_length texts _ _ hm (newEmbs_length env rng _ texts)]
    · rw [hdnil]; rfl
    · rw [hdnil, hvnil]; rfl
    · show s.index.vecs ++
        newEmbs env rng (TfidfEmbedder.fitResult env rng s.embedder texts) texts =
        newEmbs env rng (TfidfEmbedder.fitResult env rng s.embedder texts)
          (s.db.documents.map (fun r => r.2.1)) ++
        newEmbs env rng (TfidfEmbedder.fitResult env rng s.embedder texts) texts
      rw [hinil, hdnil]
      rfl
  | false =>
    rw [add_texts_none_of_fitPhase env rng s texts metadatas _ _ _ _ hte
      (fitPhase_none_unfit_refit env rng s texts hunfit hdocnil)]
    set existing := s.db.documents.map (fun r => r.2.1) with hexisting
    set emb1 := TfidfEmbedder.fitResult env rng s.embedder (existing ++ texts)
      with hemb1
    set pendingE : DB :=
      { s.db with embedder_state := some (EmbState.mk emb1.vocab emb1.svd true) }
      with hpendingE
    set old := newEmbs env rng emb1 existing with hold
    set embs := newEmbs env rng emb1 texts with hembs
    have holdlen : old.length = s.db.documents.length := by
      rw [hold, newEmbs_length, hexisting, List.length_map]
    have hpvecs : pendingE.vectors = s.db.vectors := rfl
    have hspec := updAll_spec old 0 pendingE [] pendingE.vectors
      (by rw [List.nil_append])
      (by intro r hr; exact absurd hr (List.not_mem_nil r))
      (by rw [hpvecs, hvecs])
      (by rw [holdlen, hpvecs, hlen])
    rw [List.nil_append] at hspec
    have hzlen : old.length = pendingE.vectors.length := by
      rw [holdlen, hpvecs, hlen]
    have hzwlen : (List.zipWith (fun r e => (r.1, e)) pendingE.vectors old).length =
        s.db.documents.length := by
      rw [List.length_zipWith, hzlen, Nat.min_self, hpvecs, hlen]
    rw [insAll_eq]
    refine ⟨rfl, fitResult_is_fitted env rng s.embedder _, ?_, ?_, ?_, ?_, ?_, ?_⟩
    · show (old ++ embs).length = s.db.documents.length + texts.length
      rw [List.length_append, holdlen, hembs, newEmbs_length]
    · show ((updAll 0 old pendingE).documents ++ docRows _ _).take
        s.db.documents.length = s.db.documents
      rw [updAll_documents]
      exact List.take_left' rfl
    · show ((updAll 0 old pendingE).documents ++ docRows _ _).length =
        s.db.documents.length + texts.length
      rw [List.length_append, updAll_documents, docRows_length,
        batchRows_length texts _ _ hm (newEmbs_length env rng _ texts)]
    · show (((updAll 0 old pendingE).vectors ++ vecRows _ _).take
        s.db.documents.length).map (fun r => r.1) = List.range' 1 s.db.documents.length
      rw [hspec, List.take_left' hzwlen, zipWith_keepFst_map_fst _ old hzlen, hpvecs,
        hvecs, hlen]
    · show (((updAll 0 old pendingE).vectors ++ vecRows _ _).take
        s.db.documents.length).map (fun r => r.2) = newEmbs env rng emb1 existing
      rw [hspec, List.take_left' hzwlen, zipWith_keepFst_map_snd _ old hzlen]
    · rfl

/-- C7, witness: the theorem applied to the concrete unfitted
one-document store `stPre` with a one-text batch. -/
theorem c7_refit_regenerates_and_preserves_documents_witness :
    (add_texts envW 0 none stPre ["t"] none).store.get_collection_size =
      stPre.db.documents.length + 1 ∧
    (add_texts envW 0 none stPre ["t"] none).store.db.documents.take
      stPre.db.documents.length = stPre.db.documents :=
  ⟨(c7_refit_regenerates_and_preserves_documents envW 0 stPre ["t"] none
      (by decide) (by decide) (by decide) (by decide)).2.2.1,
   (c7_refit_regenerates_and_preserves_documents envW 0 stPre ["t"] none
      (by decide) (by decide) (by decide) (by decide)).2.2.2.1⟩

/-! ### C3 — rollback behavior per failure point -/

/-- `add_texts` after a failing fit phase: the caught exception leads to
rollback — the caller sees the committed database and whatever in-memory
mutations already happened. -/
theorem add_texts_error_of_fitPhase (env : PyEnv) (rng : Nat)
    (failAt : Option FailPoint) (s : Store) (texts : List String)
    (metadatas : Option (List MetaMap)) (committed : DB) (emb1 : TfidfEmbedder)
    (index1 : FaissIndex) (ht : texts.isEmpty = false)
    (hfp : fitPhase env rng failAt s texts = .error (committed, emb1, index1)) :
    add_texts env rng failAt s texts metadatas =
      ⟨{ s with db := committed, embedder := emb1, index := index1 }, none⟩ := by
  unfold add_texts
  rw [ht]
  simp only [Bool.false_eq_true, if_false, hfp]

theorem fitPhase_atFit (env : PyEnv) (rng : Nat) (s : Store) (texts : List String)
    (hf : s.embedder.is_fitted = false) :
    fitPhase env rng (some .atFit) s texts = .error (s.db, s.embedder, s.index) := by
  unfold fitPhase
  rw [if_neg (by rw [hf]; simp)]
  simp

theorem fitPhase_atEmbedOld (env : PyEnv) (rng : Nat) (s : Store)
    (texts : List String) (hf : s.embedder.is_fitted = false)
    (hd : s.db.documents.isEmpty = false) :
    fitPhase env rng (some .atEmbedOld) s texts =
      (let existing := s.db.documents.map (fun r => r.2.1)
       let emb1 := TfidfEmbedder.fitResult env rng s.embedder (existing ++ texts)
       let pending : DB := { s.db with embedder_state := some ⟨emb1.vocab, emb1.svd, true⟩ }
       .error (pending, emb1, s.index)) := by
  unfold fitPhase TfidfEmbedder.fit
  rw [if_neg (by rw [hf]; simp)]
  have hex : (s.db.documents.map (fun r => r.2.1)).isEmpty = false := by
    cases hcase : s.db.documents with
    | nil => rw [hcase] at hd; simp at hd
    | cons a l => simp
  have hall : ((s.db.documents.map (fun r => r.2.1)) ++ texts).isEmpty = false := by
    cases hcase : s.db.documents.map (fun r => r.2.1) with
    | nil => rw [hcase] at hex; simp at hex
    | cons a l => simp
  simp only [reduceCtorEq, if_false, hall, hex, Bool.false_eq_true, if_true]
  simp

theorem fitPhase_atUpdate (env : PyEnv) (rng : Nat) (s : Store)
    (texts : List String) (i : Nat) (hf : s.embedder.is_fitted = false)
    (hd : s.db.documents.isEmpty = false)
    (hi : i < (s.db.documents.map (fun r => r.2.1)).length) :
    fitPhase env rng (some (.atUpdate i)) s texts =
      (let existing := s.db.documents.map (fun r => r.2.1)
       let emb1 := TfidfEmbedder.fitResult env rng s.embedder (existing ++ texts)
       let pending : DB := { s.db with embedder_state := some ⟨emb1.vocab, emb1.svd, true⟩ }
       let old := newEmbs env rng emb1 existing
       .error (pending, emb1, ⟨s.index.dim, old⟩)) := by
  unfold fitPhase TfidfEmbedder.fit
  rw [if_neg (by rw [hf]; simp)]
  have hex : (s.db.documents.map (fun r => r.2.1)).isEmpty = false := by
    cases hcase : s.db.documents with
    | nil => rw [hcase] at hd; simp at hd
    | cons a l => simp
  have hall : ((s.db.documents.map (fun r => r.2.1)) ++ texts).isEmpty = false := by
    cases hcase : s.db.documents.map (fun r => r.2.1) with
    | nil => rw [hcase] at hex; simp at hex
    | cons a l => simp
  simp only [reduceCtorEq, if_false, hall, hex, Bool.false_eq_true]
  rw [updLoop_fails _ 0 i _ (Nat.zero_le i)
    (by rw [Nat.zero_add, newEmbs_length]; exact hi)]
  simp

/-- `add_texts` failing at the embed-batch step for the new texts: the
fit phase succeeded, then the exception is caught, so the caller sees
the committed database and the fit phase's in-memory mutations. -/
theorem add_texts_atEmbedNew_of_fitPhase (env : PyEnv) (rng : Nat) (s : Store)
    (texts : List String) (metadatas : Option (List MetaMap))
    (committed pending : DB) (emb1 : TfidfEmbedder) (index1 : FaissIndex)
    (ht : texts.isEmpty = false)
    (hfp : fitPhase env rng (some .atEmbedNew) s texts =
      .ok (committed, pending, emb1, index1)) :
    add_texts env rng (some .atEmbedNew) s texts metadatas =
      ⟨{ s with db := committed, embedder := emb1, index := index1 }, none⟩ := by
  unfold add_texts
  rw [ht]
  simp only [Bool.false_eq_true, if_false, hfp]
  simp

/-- `add_texts` whose insertion loop raises: rows roll back, the caller
sees the committed database and the fit phase's in-memory mutations. -/
theorem add_texts_insert_fail_of_fitPhase (env : PyEnv) (rng : Nat)
    (failAt : Option FailPoint) (s : Store) (texts : List String)
    (metadatas : Option (List MetaMap)) (committed pending : DB)
    (emb1 : TfidfEmbedder) (index1 : FaissIndex)
    (ht : texts.isEmpty = false) (hne : failAt ≠ some .atEmbedNew)
    (hfp : fitPhase env rng failAt s texts = .ok (committed, pending, emb1, index1))
    (hins : insLoop failAt 0
      (batchRows texts (metadatas.getD (texts.map (fun _ => [])))
        (newEmbs env rng emb1 texts)) pending = none) :
    add_texts env rng failAt s texts metadatas =
      ⟨{ s with db := committed, embedder := emb1, index := index1 }, none⟩ := by
  unfold add_texts
  rw [ht]
  simp only [Bool.false_eq_true, if_false, hfp, if_neg hne, hins]

/-- `add_texts` failing at the final commit: the insertion loop and the
in-memory index append have already run, so the caller sees the
committed database but the index holds the batch's vectors. -/
theorem add_texts_atCommit_of_fitPhase (env : PyEnv) (rng : Nat) (s : Store)
    (texts : List String) (metadatas : Option (List MetaMap))
    (committed pending : DB) (emb1 : TfidfEmbedder) (index1 : FaissIndex)
    (ht : texts.isEmpty = false)
    (hfp : fitPhase env rng (some .atCommit) s texts =
      .ok (committed, pending, emb1, index1)) :
    add_texts env rng (some .atCommit) s texts metadatas =
      ⟨{ s with db := committed, embedder := emb1, index := FaissIndex.mk index1.dim (index1.vecs ++ newEmbs env rng emb1 texts) }, none⟩ := by
  unfold add_texts
  rw [ht]
  simp only [Bool.false_eq_true, if_false, hfp, Option.some.injEq, reduceCtorEq]
  rw [insLoop_skip _ _ 0 _ (fun m _ _ => by simp)]
  simp

/-- C3, counterexample.  The claim says any mid-batch failure leaves
`size()` at the pre-batch value.  Injecting the failure at the final
`conn.commit()` of a 2-text batch on the one-document store: the
database rows are rolled back, no error escapes, but
`self.index.add(embeddings)` has already run, so `size()` is 3, not the
pre-batch 1. -/
theorem c3_commit_failure_leaves_index_mutated :
    (add_texts envW 0 (some .atCommit) stOne ["x", "y"] none).store.db = stOne.db ∧
    (add_texts envW 0 (some .atCommit) stOne ["x", "y"] none).raised = none ∧
    stOne.get_collection_size = 1 ∧
    (add_texts envW 0 (some .atCommit) stOne ["x", "y"] none).store.get_collection_size
      = 3 := by
  refine ⟨rfl, rfl, rfl, ?_⟩
  show ((stOne.index.vecs ++ newEmbs envW 0 stOne.embedder ["x", "y"]).length) = 3
  rw [List.length_append, newEmbs_length]
  rfl

/-- C3, amended.  On the re-fit path of a well-formed store (unfitted
embedder, prior documents present), a failure at any point up to and
including the row-insertion loop is caught and the document and vector
tables roll back to their pre-batch state with `size()` unchanged — but
with two deviations from the claim: the embedder state persisted by the
re-fit is committed separately and survives the rollback, and a failure
at the final commit comes after the in-memory index append, so the index
keeps the batch (`size() = N + M`) while the tables roll back. -/
theorem c3_rollback_behavior_by_failpoint (env : PyEnv) (rng : Nat) (s : Store)
    (texts : List String) (metadatas : Option (List MetaMap))
    (hinv : storeInv s) (hunfit : s.embedder.is_fitted = false)
    (hdocne : s.db.documents.isEmpty = false) (hte : texts.isEmpty = false)
    (hm : (metadatas.getD (texts.map (fun _ => []))).length = texts.length) :
    (add_texts env rng (some .atFit) s texts metadatas).store = s ∧
    ((add_texts env rng (some .atEmbedOld) s texts metadatas).store.db.documents =
        s.db.documents ∧
      (add_texts env rng (some .atEmbedOld) s texts metadatas).store.db.vectors =
        s.db.vectors ∧
      (add_texts env rng (some .atEmbedOld) s texts metadatas).store.get_collection_size =
        s.get_collection_size ∧
      (∃ st, (add_texts env rng (some .atEmbedOld) s texts
          metadatas).store.db.embedder_state = some st ∧ st.is_fitted = true)) ∧
    (∀ i, i < s.db.documents.length →
      (add_texts env rng (some (.atUpdate i)) s texts metadatas).store.db.documents =
        s.db.documents ∧
      (add_texts env rng (some (.atUpdate i)) s texts metadatas).store.db.vectors =
        s.db.vectors ∧
      (add_texts env rng (some (.atUpdate i)) s texts
          metadatas).store.get_collection_size = s.get_collection_size) ∧
    ((add_texts env rng (some .atEmbedNew) s texts metadatas).store.db.documents =
        s.db.documents ∧
      (add_texts env rng (some .atEmbedNew) s texts metadatas).store.db.vectors =
        s.db.vectors ∧
      (add_texts env rng (some .atEmbedNew) s texts
          metadatas).store.get_collection_size = s.get_collection_size) ∧
    (∀ i, i < texts.length →
      (add_texts env rng (some (.atInsert i)) s texts metadatas).store.db.documents =
        s.db.documents ∧
      (add_texts env rng (some (.atInsert i)) s texts metadatas).store.db.vectors =
        s.db.vectors ∧
      (add_texts env rng (some (.atInsert i)) s texts
          metadatas).store.get_collection_size = s.get_collection_size) ∧
    ((add_texts env rng (some .atCommit) s texts metadatas).store.db.documents =
        s.db.documents ∧
      (add_texts env rng (some .atCommit) s texts metadatas).store.db.vectors =
        s.db.vectors ∧
      (add_texts env rng (some .atCommit) s texts metadatas).store.get_collection_size =
        s.db.documents.length + texts.length) := by
  obtain ⟨⟨hdocs, hvecs, hlen, hnext⟩, hidx⟩ := hinv
  have hsize : s.get_collection_size = s.db.documents.length := by
    show s.index.vecs.length = _
    rw [hidx, List.length_map, hlen]
  set existing := s.db.documents.map (fun r => r.2.1) with hexisting
  set emb1 := TfidfEmbedder.fitResult env rng s.embedder (existing ++ texts)
    with hemb1
  set pendingE : DB :=
    { s.db with embedder_state := some (EmbState.mk emb1.vocab emb1.svd true) }
    with hpendingE
  set old := newEmbs env rng emb1 existing with hold
  set embs := newEmbs env rng emb1 texts with hembs
  have holdlen : old.length = s.db.documents.length := by
    rw [hold, newEmbs_length, hexisting, List.length_map]
  refine ⟨?_, ?_, ?_, ?_, ?_, ?_⟩
  · rw [add_texts_error_of_fitPhase env rng _ s texts metadatas _ _ _ hte
      (fitPhase_atFit env rng s texts hunfit)]
  · rw [add_texts_error_of_fitPhase env rng _ s texts metadatas _ _ _ hte
      (fitPhase_atEmbedOld env rng s texts hunfit hdocne)]
    exact ⟨rfl, rfl, rfl, ⟨EmbState.mk emb1.vocab emb1.svd true, rfl, rfl⟩⟩
  · intro i hi
    rw [add_texts_error_of_fitPhase env rng _ s texts metadatas _ _ _ hte
      (fitPhase_atUpdate env rng s texts i hunfit hdocne
        (by rw [List.length_map]; exact hi))]
    refine ⟨rfl, rfl, ?_⟩
    show old.length = s.get_collection_size
    rw [holdlen, hsize]
  · have hfp : fitPhase env rng (some .atEmbedNew) s texts =
        .ok (pendingE, updAll 0 old pendingE, emb1, ⟨s.index.dim, old⟩) := by
      rw [fitPhase_other_fail env rng _ s texts (by simp) (by simp) (by simp),
        fitPhase_none_unfit_refit env rng s texts hunfit hdocne]
    rw [add_texts_atEmbedNew_of_fitPhase env rng s texts metadatas _ _ _ _ hte hfp]
    refine ⟨rfl, rfl, ?_⟩
    show old.length = s.get_collection_size
    rw [holdlen, hsize]
  · intro i hi
    have hfp : fitPhase env rng (some (.atInsert i)) s texts =
        .ok (pendingE, updAll 0 old pendingE, emb1, ⟨s.index.dim, old⟩) := by
      rw [fitPhase_other_fail env rng _ s texts (by simp) (by simp) (by simp),
        fitPhase_none_unfit_refit env rng s texts hunfit hdocne]
    have hins : insLoop (some (.atInsert i)) 0
        (batchRows texts (metadatas.getD (texts.map (fun _ => [])))
          (newEmbs env rng emb1 texts)) (updAll 0 old pendingE) = none := by
      apply insLoop_fails _ 0 i _ (Nat.zero_le i)
      rw [Nat.zero_add,
        batchRows_length texts _ _ hm (newEmbs_length env rng emb1 texts)]
      exact hi
    rw [add_texts_insert_fail_of_fitPhase env rng _ s texts metadatas _ _ _ _ hte
      (by simp) hfp hins]
    refine ⟨rfl, rfl, ?_⟩
    show old.length = s.get_collection_size
    rw [holdlen, hsize]
  · have hfp : fitPhase env rng (some .atCommit) s texts =
        .ok (pendingE, updAll 0 old pendingE, emb1, ⟨s.index.dim, old⟩) := by
      rw [fitPhase_other_fail env rng _ s texts (by simp) (by simp) (by simp),
        fitPhase_none_unfit_refit env rng s texts hunfit hdocne]
    rw [add_texts_atCommit_of_fitPhase env rng s texts metadatas _ _ _ _ hte hfp]
    refine ⟨rfl, rfl, ?_⟩
    show (old ++ newEmbs env rng emb1 texts).length =
      s.db.documents.length + texts.length
    rw [List.length_append, holdlen, newEmbs_length]

/-- C3, witness: the amended theorem applied to the unfitted one-document
store `stPre` and a one-text batch; the extracted conjunct is the
rollback at the first insertion. -/
theorem c3_rollback_behavior_by_failpoint_witness :
    (add_texts envW 0 (some (.atInsert 0)) stPre ["t"] none).store.db.documents =
      stPre.db.documents ∧
    (add_texts envW 0 (some (.atInsert 0)) stPre ["t"] none).store.db.vectors =
      stPre.db.vectors ∧
    (add_texts envW 0 (some (.atInsert 0)) stPre ["t"] none).store.get_collection_size =
      stPre.get_collection_size :=
  (c3_rollback_behavior_by_failpoint envW 0 stPre ["t"] none
    (by decide) (by decide) (by decide) (by decide) (by decide)).2.2.2.2.1 0
    (by decide)

/-! ### C5 — shape and order of search results -/

theorem sumSq_nonneg (v : Vec) : 0 ≤ sumSq v := by
  induction v with
  | nil => exact le_refl 0
  | cons a rest ih =>
    show 0 ≤ ((a :: rest).map (fun x => x * x)).sum
    rw [List.map_cons, List.sum_cons]
    exact add_nonneg (mul_self_nonneg a) ih

theorem dot_eq_sum_range (u : Vec) :
    ∀ (v : Vec), dot u v =
      ∑ i ∈ Finset.range (min u.length v.length), u.getD i 0 * v.getD i 0 := by
  induction u with
  | nil => intro v; simp [dot]
  | cons a u' ih =>
    intro v
    cases v with
    | nil => simp [dot]
    | cons b v' =>
      show (a * b + (List.zipWith (· * ·) u' v').sum) = _
      have hmin : (a :: u').length ⊓ (b :: v').length = u'.length ⊓ v'.length + 1 := by
        simp only [List.length_cons]
        omega
      rw [hmin, Finset.sum_range_succ']
      simp only [List.getD_cons_succ, List.getD_cons_zero]
      rw [← ih v']
      show a * b + dot u' v' = dot u' v' + a * b
      exact add_comm _ _

theorem sumSq_eq_sum_range (u : Vec) :
    sumSq u = ∑ i ∈ Finset.range u.length, u.getD i 0 * u.getD i 0 := by
  induction u with
  | nil => simp [sumSq]
  | cons a u' ih =>
    show ((a :: u').map (fun x => x * x)).sum = _
    rw [List.map_cons, List.sum_cons, List.length_cons, Finset.sum_range_succ']
    simp only [List.getD_cons_succ, List.getD_cons_zero]
    rw [← ih]
    show a * a + sumSq u' = sumSq u' + a * a
    exact add_comm _ _

/-- Cauchy–Schwarz for the inner product of the flat index: the squared
similarity is bounded by the product of the squared norms. -/
theorem dot_sq_le_sumSq_mul_sumSq (u v : Vec) :
    (dot u v) ^ 2 ≤ sumSq u * sumSq v := by
  have hmin : Finset.range (min u.length v.length) ⊆ Finset.range u.length :=
    Finset.range_subset.mpr (Nat.min_le_left _ _)
  have hmin' : Finset.range (min u.length v.length) ⊆ Finset.range v.length :=
    Finset.range_subset.mpr (Nat.min_le_right _ _)
  have hcs := Finset.sum_mul_sq_le_sq_mul_sq (Finset.range (min u.length v.length))
    (fun i => u.getD i 0) (fun i => v.getD i 0)
  have h1 : ∑ i ∈ Finset.range (min u.length v.length), u.getD i 0 ^ 2 ≤ sumSq u := by
    rw [sumSq_eq_sum_range]
    calc ∑ i ∈ Finset.range (min u.length v.length), u.getD i 0 ^ 2
        = ∑ i ∈ Finset.range (min u.length v.length), u.getD i 0 * u.getD i 0 :=
          Finset.sum_congr rfl (fun i _ => pow_two _)
      _ ≤ ∑ i ∈ Finset.range u.length, u.getD i 0 * u.getD i 0 :=
          Finset.sum_le_sum_of_subset_of_nonneg hmin (fun i _ _ => mul_self_nonneg _)
  have h2 : ∑ i ∈ Finset.range (min u.length v.length), v.getD i 0 ^ 2 ≤ sumSq v := by
    rw [sumSq_eq_sum_range]
    calc ∑ i ∈ Finset.range (min u.length v.length), v.getD i 0 ^ 2
        = ∑ i ∈ Finset.range (min u.length v.length), v.getD i 0 * v.getD i 0 :=
          Finset.sum_congr rfl (fun i _ => pow_two _)
      _ ≤ ∑ i ∈ Finset.range v.length, v.getD i 0 * v.getD i 0 :=
          Finset.sum_le_sum_of_subset_of_nonneg hmin' (fun i _ _ => mul_self_nonneg _)
  rw [dot_eq_sum_range]
  refine le_trans hcs (mul_le_mul h1 h2 ?_ ?_)
  · exact Finset.sum_nonneg (fun i _ => sq_nonneg _)
  · exact le_trans (Finset.sum_nonneg (fun i _ => sq_nonneg _)) h1

/-- Similarities of unit-norm vectors lie in `[-1, 1]`. -/
theorem dot_bounds (u v : Vec) (hu : sumSq u = 1) (hv : sumSq v = 1) :
    -1 ≤ dot u v ∧ dot u v ≤ 1 := by
  have h := dot_sq_le_sumSq_mul_sumSq u v
  rw [hu, hv, one_mul] at h
  constructor
  · nlinarith [sq_nonneg (dot u v + 1)]
  · nlinarith [sq_nonneg (dot u v - 1)]

theorem scoredFrom_length (q : Vec) :
    ∀ (l : List Vec) (i : Nat), (scoredFrom q i l).length = l.length := by
  intro l
  induction l with
  | nil => intro i; rfl
  | cons v rest ih => intro i; show (scoredFrom q i (v :: rest)).length = _; rw [scoredFrom]; simp [ih]

theorem scoredFrom_mem (q : Vec) :
    ∀ (l : List Vec) (i : Nat) (p : Nat × ℚ), p ∈ scoredFrom q i l →
      i ≤ p.1 ∧ p.1 < i + l.length ∧ ∃ v ∈ l, p.2 = dot q v := by
  intro l
  induction l with
  | nil => intro i p h; exact absurd h (List.not_mem_nil p)
  | cons v rest ih =>
    intro i p h
    rw [scoredFrom] at h
    rcases List.mem_cons.mp h with h | h
    · subst h
      exact ⟨Nat.le_refl i, by simp, v, List.mem_cons_self v rest, rfl⟩
    · obtain ⟨h1, h2, w, hw, hv⟩ := ih (i + 1) p h
      exact ⟨by omega, by simp at h2 ⊢; omega, w, List.mem_cons_of_mem v hw, hv⟩

theorem faissRank_sorted (q : Vec) (k : Nat) (idx : FaissIndex) :
    List.Sorted rankRel (faissRank q k idx) :=
  List.Pairwise.sublist (List.take_sublist k _) (List.sorted_insertionSort rankRel _)

theorem faissRank_length (q : Vec) (k : Nat) (idx : FaissIndex) :
    (faissRank q k idx).length = min k idx.ntotal := by
  unfold faissRank
  rw [List.length_take, (List.perm_insertionSort rankRel _).length_eq,
    scoredFrom_length]
  rfl

theorem faissRank_mem (q : Vec) (k : Nat) (idx : FaissIndex) (p : Nat × ℚ)
    (h : p ∈ faissRank q k idx) :
    p.1 < idx.ntotal ∧ ∃ v ∈ idx.vecs, p.2 = dot q v := by
  have h1 : p ∈ (scoredFrom q 0 idx.vecs).insertionSort rankRel :=
    List.take_subset _ _ h
  have h2 : p ∈ scoredFrom q 0 idx.vecs :=
    ((List.perm_insertionSort rankRel _).mem_iff).mp h1
  obtain ⟨_, hlt, hv⟩ := scoredFrom_mem q idx.vecs 0 p h2
  exact ⟨by simpa using hlt, hv⟩

theorem filterMap_length_all_some {α β : Type} (f : α → Option β) (l : List α)
    (h : ∀ a ∈ l, (f a).isSome) : (l.filterMap f).length = l.length := by
  induction l with
  | nil => rfl
  | cons a rest ih =>
    obtain ⟨b, hb⟩ := Option.isSome_iff_exists.mp (h a (List.mem_cons_self a rest))
    rw [List.filterMap_cons_some hb, List.length_cons, List.length_cons,
      ih (fun x hx => h x (List.mem_cons_of_mem a hx))]

theorem filterMap_getElem?_all_some {α β : Type} (f : α → Option β) (l : List α)
    (h : ∀ a ∈ l, (f a).isSome) :
    ∀ (i : Nat), (l.filterMap f)[i]? = l[i]?.bind f := by
  induction l with
  | nil => intro i; simp
  | cons a rest ih =>
    intro i
    obtain ⟨b, hb⟩ := Option.isSome_iff_exists.mp (h a (List.mem_cons_self a rest))
    rw [List.filterMap_cons_some hb]
    cases i with
    | zero => simp [hb]
    | succ j =>
      simp only [List.getElem?_cons_succ]
      exact ih (fun x hx => h x (List.mem_cons_of_mem a hx)) j

theorem dbGetDocument_isSome_of_range (db : DB) (n j : Nat)
    (hdocs : db.documents.map (fun r => r.1) = List.range' 1 n) (hj : j < n) :
    (dbGetDocument db (j + 1)).isSome := by
  have hmem : j + 1 ∈ db.documents.map (fun r => r.1) := by
    rw [hdocs]
    exact List.mem_range'_1.mpr ⟨by omega, by omega⟩
  obtain ⟨r, hr, hr1⟩ := List.mem_map.mp hmem
  have hfind : (db.documents.find? (fun r => r.1 = j + 1)).isSome :=
    List.find?_isSome.mpr ⟨r, hr, by simp [hr1]⟩
  obtain ⟨x, hx⟩ := Option.isSome_iff_exists.mp hfind
  unfold dbGetDocument
  rw [hx]
  rfl

/-- `similarity_search` on a non-empty index, no failure: embed and
normalize the query, rank with the flat index, resolve each rank to
document id `rank + 1`. -/
theorem similarity_search_nonempty (env : PyEnv) (rng : Nat) (s : Store)
    (query : String) (k : Nat) (hne : ¬ s.index.ntotal = 0) :
    similarity_search env rng none s query k =
      ⟨(faissSearch (l2normalize env (TfidfEmbedder.embedOne env rng s.embedder query))
          (min k s.index.ntotal) s.index).filterMap (fun i =>
        (dbGetDocument s.db (i + 1)).map (fun r => Document.mk r.1 r.2)), none⟩ := by
  unfold similarity_search
  rw [if_neg hne, if_neg (by simp)]

/-- C5, counterexample.  The claim says every search result carries a
similarity score.  On the code, two stores holding the same document
under different vectors — hence different internal similarities for the
same query — produce literally identical search outputs: the returned
`Document` values (content and metadata only) cannot carry any
similarity score.  The second conjunct exhibits the internal rankings
(index position with inner-product score) differing between the two
stores while the outputs coincide. -/
theorem c5_search_results_carry_no_similarity :
    (similarity_search envW 0 none stOne "q" 1).results =
      (similarity_search envW 0 none stHalf "q" 1).results ∧
    faissRank (l2normalize envW (TfidfEmbedder.embedOne envW 0 stOne.embedder "q"))
        1 stOne.index ≠
      faissRank (l2normalize envW (TfidfEmbedder.embedOne envW 0 stHalf.embedder "q"))
        1 stHalf.index := by
  constructor
  · simp [similarity_search, FaissIndex.ntotal, stOne, stHalf, dbOne, dbHalf,
      CrewAIVectorStore.init, orderById, TfidfEmbedder.embedOne, envW, l2normalize,
      ensure_dimension, faissSearch, faissRank, scoredFrom, dot, dbGetDocument,
      List.insertionSort, List.orderedInsert, TfidfEmbedder.init]
  · simp [faissRank, scoredFrom, dot, stOne, stHalf, dbOne, dbHalf,
      CrewAIVectorStore.init, orderById, TfidfEmbedder.embedOne, envW, l2normalize,
      ensure_dimension, List.insertionSort, List.orderedInsert, TfidfEmbedder.init]

/-- C5, amended.  On a non-empty store satisfying the id-to-rank
invariant, with unit-norm stored vectors and a unit-norm normalized
query embedding, `similarity_search` raises nothing and returns exactly
`min(k, ntotal)` bare `Document`s; the internal ranking it used is
sorted by descending inner-product similarity with ties broken toward
the lower index position (hence the lower document id), every internal
similarity lies in `[-1, 1]`, and the `i`-th returned document is the
one persisted under id `rank_i + 1` — but no similarity score is
attached to the results. -/
theorem c5_search_length_order_bounds (env : PyEnv) (rng : Nat) (s : Store)
    (query : String) (k : Nat) (hinv : storeInv s) (hne : ¬ s.index.ntotal = 0)
    (hunit : ∀ v ∈ s.index.vecs, sumSq v = 1)
    (hq : sumSq (l2normalize env (TfidfEmbedder.embedOne env rng s.embedder query)) = 1) :
    (similarity_search env rng none s query k).raised = none ∧
    (similarity_search env rng none s query k).results.length = min k s.index.ntotal ∧
    List.Sorted rankRel (faissRank
      (l2normalize env (TfidfEmbedder.embedOne env rng s.embedder query))
      (min k s.index.ntotal) s.index) ∧
    (∀ p ∈ faissRank
        (l2normalize env (TfidfEmbedder.embedOne env rng s.embedder query))
        (min k s.index.ntotal) s.index, -1 ≤ p.2 ∧ p.2 ≤ 1) ∧
    (∀ (i : Nat) (p : Nat × ℚ),
      (faissRank (l2normalize env (TfidfEmbedder.embedOne env rng s.embedder query))
        (min k s.index.ntotal) s.index)[i]? = some p →
      (similarity_search env rng none s query k).results[i]? =
        (dbGetDocument s.db (p.1 + 1)).map (fun r => Document.mk r.1 r.2)) := by
  obtain ⟨⟨hdocs, hvecs, hlen, hnext⟩, hidx⟩ := hinv
  have hntotal : s.index.ntotal = s.db.documents.length := by
    show s.index.vecs.length = _
    rw [hidx, List.length_map, hlen]
  set qe := l2normalize env (TfidfEmbedder.embedOne env rng s.embedder query) with hqe
  set kk := min k s.index.ntotal with hkk
  have hsome : ∀ i ∈ faissSearch qe kk s.index,
      ((dbGetDocument s.db (i + 1)).map (fun r => Document.mk r.1 r.2)).isSome := by
    intro i hi
    obtain ⟨p, hp, hpi⟩ := List.mem_map.mp hi
    have hlt : p.1 < s.index.ntotal := (faissRank_mem qe kk s.index p hp).1
    have hdoc := dbGetDocument_isSome_of_range s.db s.db.documents.length p.1 hdocs
      (by rw [← hntotal]; exact hlt)
    obtain ⟨x, hx⟩ := Option.isSome_iff_exists.mp hdoc
    rw [← hpi, hx]
    rfl
  rw [similarity_search_nonempty env rng s query k hne]
  refine ⟨rfl, ?_, faissRank_sorted qe kk s.index, ?_, ?_⟩
  · show ((faissSearch qe kk s.index).filterMap _).length = kk
    rw [filterMap_length_all_some _ _ hsome]
    show ((faissRank qe kk s.index).map (fun p => p.1)).length = kk
    rw [List.length_map, faissRank_length]
    omega
  · intro p hp
    obtain ⟨hlt, v, hv, hpv⟩ := faissRank_mem qe kk s.index p hp
    rw [hpv]
    exact dot_bounds qe v hq (hunit v hv)
  · intro i p hp
    show ((faissSearch qe kk s.index).filterMap _)[i]? = _
    rw [filterMap_getElem?_all_some _ _ hsome i]
    show (((faissRank qe kk s.index).map (fun p => p.1))[i]?).bind _ = _
    rw [List.getElem?_map, hp]
    rfl

/-- C5, witness: the amended theorem applied to the concrete two-document
tie store — two identical unit vectors, `k = 5` — whose search returns
both documents (lower id first). -/
theorem c5_search_length_order_bounds_witness :
    (similarity_search envW 0 none stTie "q" 5).results.length = min 5 stTie.index.ntotal :=
  (c5_search_length_order_bounds envW 0 stTie "q" 5 (by decide) (by decide)
    (by
      simp [sumSq, stTie, dbTie, CrewAIVectorStore.init, orderById,
        List.insertionSort, List.orderedInsert])
    (by
      simp [sumSq, l2normalize, TfidfEmbedder.embedOne, envW, stTie, dbTie,
        CrewAIVectorStore.init, ensure_dimension, TfidfEmbedder.init])).2.1

/-! ### C1 — search on an empty store -/

/-- C1, counterexample.  The claim says a search on an empty store
returns an empty result sequence.  On the code, the empty store returns
the one-element placeholder list `[Document("Vector store vuoto")]`,
which is not empty (it does raise no error). -/
theorem c1_empty_search_result_is_not_empty :
    (similarity_search envW 0 none emptyStore "anything" 3).results =
      [⟨"Vector store vuoto", []⟩] ∧
    (similarity_search envW 0 none emptyStore "anything" 3).results ≠ [] ∧
    (similarity_search envW 0 none emptyStore "anything" 3).raised = none := by
  decide

/-- C1, amended.  For every store whose index holds zero elements,
`similarity_search` raises nothing to the caller and returns the
one-element placeholder list `[Document("Vector store vuoto")]` (not an
empty list), for any query, any `k`, any external environment, and even
when a later step was going to fail. -/
theorem c1_empty_search_returns_placeholder (env : PyEnv) (rng : Nat)
    (failAt : Option FailPoint) (s : Store) (query : String) (k : Nat)
    (h : s.index.ntotal = 0) :
    similarity_search env rng failAt s query k =
      ⟨[⟨"Vector store vuoto", []⟩], none⟩ := by
  unfold similarity_search
  rw [if_pos h]

/-- C1, witness: the amended theorem applied to the concrete empty
store. -/
theorem c1_empty_search_returns_placeholder_witness :
    similarity_search envW 0 none emptyStore "anything" 3 =
      ⟨[⟨"Vector store vuoto", []⟩], none⟩ :=
  c1_empty_search_returns_placeholder envW 0 none emptyStore "anything" 3 (by decide)

/-! ### C2 — error propagation -/

/-- C2, counterexample.  The claim says a storage failure inside
`add_texts` propagates unmodified to the caller.  On the code, injecting
a failure at the first document insertion of a batch leaves the caller
with no exception at all (`add_texts` swallows it after rolling the
transaction back): the escaping error is `none`, not some storage
error. -/
theorem c2_storage_failure_not_propagated :
    (add_texts envW 0 (some (.atInsert 0)) stOne ["x"] none).raised = none ∧
    (add_texts envW 0 (some (.atInsert 0)) stOne ["x"] none).store.db = stOne.db := by
  decide

/-- C2, amended.  No exception ever escapes `add_texts` or
`similarity_search` to the caller: both wrap their whole body in a bare
`except` that logs and returns normally (`add_texts` after a rollback,
`similarity_search` with a placeholder list).  The only behavior close
to the claimed propagation is that nothing else intercepts errors
in between. -/
theorem c2_operations_swallow_all_errors (env : PyEnv) (rng : Nat)
    (failAt : Option FailPoint) (s : Store) (texts : List String)
    (metadatas : Option (List MetaMap)) (query : String) (k : Nat) :
    (add_texts env rng failAt s texts metadatas).raised = none ∧
    (similarity_search env rng failAt s query k).raised = none := by
  constructor
  · unfold add_texts
    dsimp only
    repeat' split
    all_goals rfl
  · unfold similarity_search
    split
    · rfl
    · split <;> rfl

/-! ### C8 — determinism of fitting -/

/-- C8, supporting theorem for the code bug.  `TfidfEmbedder.fit`
succeeds on the fixed two-text corpus at two different global RNG states
and produces different embedder parameters, because the source builds
`TruncatedSVD` with no `random_state` (default randomized algorithm) and
the corpus vocabulary (2 features under `envW`) exceeds the configured
dimension (1), so the reduction is fitted from the ambient RNG.  This
contradicts both the claim and the class docstring ("Completamente
deterministico e stabile"). -/
theorem c8_fit_depends_on_global_rng :
    TfidfEmbedder.fit envW 0 (TfidfEmbedder.init 1) ["a", "b"] =
      .ok (TfidfEmbedder.fitResult envW 0 (TfidfEmbedder.init 1) ["a", "b"]) ∧
    TfidfEmbedder.fit envW 1 (TfidfEmbedder.init 1) ["a", "b"] =
      .ok (TfidfEmbedder.fitResult envW 1 (TfidfEmbedder.init 1) ["a", "b"]) ∧
    TfidfEmbedder.fitResult envW 0 (TfidfEmbedder.init 1) ["a", "b"] ≠
      TfidfEmbedder.fitResult envW 1 (TfidfEmbedder.init 1) ["a", "b"] :=
  ⟨rfl, rfl, by decide⟩

/-! ### C9 — embedding before fit -/

/-- C9, counterexample.  The claim says `embed` before fit either fails
with `NotFittedError` or returns a clearly-flagged degraded vector.  On
the code it does neither: the unfitted call returns normally, and its
return value can be bit-for-bit identical to a genuine embedding of a
fitted embedder — the caller cannot tell them apart, so the vector
carries no flag (the only signal is a console print). -/
theorem c9_unfitted_embed_indistinguishable :
    TfidfEmbedder.embedOne envW 0 unfitOne "x" =
      TfidfEmbedder.embedOne envW 0 fitOne "x" ∧
    unfitOne.is_fitted = false ∧ fitOne.is_fitted = true := by
  refine ⟨?_, rfl, rfl⟩
  simp [TfidfEmbedder.embedOne, envW, unfitOne, fitOne, TfidfEmbedder.init,
    ensure_dimension]

/-- C9, amended.  Before fitting, `embed` does not fail and returns
exactly `np.random.randn(dimension)` — an unflagged plain vector (not
even normalized); the degraded mode is signalled only by a console
print, not by anything in the value handed to the consumer. -/
theorem c9_unfitted_embed_returns_randn (env : PyEnv) (rng : Nat)
    (e : TfidfEmbedder) (text : String) (h : e.is_fitted = false) :
    TfidfEmbedder.embedOne env rng e text = env.randn rng e.dimension := by
  unfold TfidfEmbedder.embedOne
  rw [if_pos h]

/-- C9, witness: the amended theorem applied to a concrete unfitted
embedder. -/
theorem c9_unfitted_embed_returns_randn_witness :
    TfidfEmbedder.embedOne envW 0 unfitOne "t" = envW.randn 0 1 :=
  c9_unfitted_embed_returns_randn envW 0 unfitOne "t" rfl

/-! ### C10 — empty batch is a no-op -/

/-- C10, confirmed.  `add_texts` with an empty text list returns
immediately: the store (database rows, embedder state and fit flag,
FAISS index, counters) is unchanged and no error is raised, for every
store, environment, metadata argument, and failure injection. -/
theorem c10_add_texts_empty_batch_is_noop (env : PyEnv) (rng : Nat)
    (failAt : Option FailPoint) (s : Store) (metadatas : Option (List MetaMap)) :
    add_texts env rng failAt s [] metadatas = ⟨s, none⟩ :=
  rfl

end ExamRag
